import Mathlib

/-! # Fractal Spiro Paint: the geometry generators, verified

Shallow embedding of the two pure geometry generators of the Fractal Spiro
Paint repository:

* the fractal pattern-substitution engine of
  src/tools/fractal/fractal_drawer.py (class FractalGenerator), and
* the spirograph (hypotrochoid) sampler of
  src/tools/spiro/spiro_drawer.py (class SpiroGenerator).

Python floats are modelled as real numbers and Python ints as integers.
Every definition is translated clause by clause from the Python source.
-/

namespace FractalSpiroPaint

/-- A point: an ordered pair of real coordinates, the `Point` type alias of
fractal_drawer.py. -/
abbrev Point : Type := ℝ × ℝ

/-- A polyline: an ordered list of points, the `Polyline` type alias of
fractal_drawer.py. -/
abbrev Polyline : Type := List Point

/-- Python's math.hypot x y: the Euclidean norm of the vector (x, y). -/
noncomputable def hypot (x y : ℝ) : ℝ := Real.sqrt (x * x + y * y)

/-- Python's math.atan2 y x: the angle of the vector (x, y), embedded as the
argument of the complex number with real part x and imaginary part y (both
have range (-pi, pi] and the same quadrant conventions). -/
noncomputable def atan2 (y x : ℝ) : ℝ := Complex.arg ⟨x, y⟩

theorem hypot_eq_zero_iff (x y : ℝ) : hypot x y = 0 ↔ x = 0 ∧ y = 0 := by
  unfold hypot
  rw [show x * x + y * y = x ^ 2 + y ^ 2 by ring,
    Real.sqrt_eq_zero (by positivity)]
  constructor
  · intro h
    constructor <;> nlinarith [sq_nonneg x, sq_nonneg y]
  · rintro ⟨rfl, rfl⟩
    norm_num

theorem hypot_nonneg (x y : ℝ) : 0 ≤ hypot x y := Real.sqrt_nonneg _

theorem hypot_mul_self (x y : ℝ) : hypot x y * hypot x y = x * x + y * y :=
  Real.mul_self_sqrt (by nlinarith [sq_nonneg x, sq_nonneg y])

theorem abs_mk_eq_hypot (x y : ℝ) : Complex.abs ⟨x, y⟩ = hypot x y := by
  rw [Complex.abs_apply, Complex.normSq_mk, hypot]

theorem cos_atan2 (y x : ℝ) (h : ¬(x = 0 ∧ y = 0)) :
    Real.cos (atan2 y x) = x / hypot x y := by
  have hz : (⟨x, y⟩ : ℂ) ≠ 0 := by
    simp only [ne_eq, Complex.ext_iff, Complex.zero_re, Complex.zero_im]
    tauto
  have hc := Complex.cos_arg hz
  rwa [abs_mk_eq_hypot] at hc

theorem sin_atan2 (y x : ℝ) : Real.sin (atan2 y x) = y / hypot x y := by
  have hs := Complex.sin_arg (⟨x, y⟩ : ℂ)
  rwa [abs_mk_eq_hypot] at hs

/-- FractalGenerator._normalize_pattern: translate the pattern so that its
first point is at the origin, rotate it so that the vector from its first to
its last point lies along the positive x-axis, and scale so that this vector
has length 1.  A pattern with fewer than 2 points, or whose first-to-last
vector has zero length, is returned unchanged. -/
noncomputable def normalize_pattern (pattern : Polyline) : Polyline :=
  if pattern.length < 2 then pattern
  else
    let start := pattern.headI
    let stop := pattern.getLastD (0, 0)
    let dx := stop.1 - start.1
    let dy := stop.2 - start.2
    let length := hypot dx dy
    if length = 0 then pattern
    else
      let angle := atan2 dy dx
      let cos_a := Real.cos (-angle)
      let sin_a := Real.sin (-angle)
      pattern.map fun p =>
        let tx := p.1 - start.1
        let ty := p.2 - start.2
        let rx := tx * cos_a - ty * sin_a
        let ry := tx * sin_a + ty * cos_a
        (rx / length, ry / length)

/-- FractalGenerator._apply_pattern_to_segment: a zero-length segment is
copied as its two endpoints; otherwise every unit-pattern point is scaled by
the segment length, rotated by the segment angle and translated by the
segment's start. -/
noncomputable def apply_pattern_to_segment (unit_pattern : Polyline)
    (segment : Point × Point) : Polyline :=
  let dx := segment.2.1 - segment.1.1
  let dy := segment.2.2 - segment.1.2
  let length := hypot dx dy
  if length = 0 then [segment.1, segment.2]
  else
    let angle := atan2 dy dx
    let cos_a := Real.cos angle
    let sin_a := Real.sin angle
    unit_pattern.map fun p =>
      let sx := p.1 * length
      let sy := p.2 * length
      let rx := sx * cos_a - sy * sin_a
      let ry := sx * sin_a + sy * cos_a
      (segment.1.1 + rx, segment.1.2 + ry)


theorem normalize_pattern_length (pattern : Polyline) :
    (normalize_pattern pattern).length = pattern.length := by
  simp only [normalize_pattern]
  split_ifs <;> simp

theorem exists_cons_of_two_le {pattern : Polyline} (hm : 2 ≤ pattern.length) :
    ∃ p l, pattern = p :: l := by
  cases pattern with
  | nil => simp at hm
  | cons p l => exact ⟨p, l, rfl⟩

theorem not_sub_eq_zero_pair {P Q : Point} (h : P ≠ Q) :
    ¬(Q.1 - P.1 = 0 ∧ Q.2 - P.2 = 0) := by
  rintro ⟨h1, h2⟩
  exact h (Prod.ext (by linarith) (by linarith))

theorem apply_pattern_to_segment_length_of_ne (unit_pattern : Polyline)
    (A B : Point) (hAB : A ≠ B) :
    (apply_pattern_to_segment unit_pattern (A, B)).length = unit_pattern.length := by
  have hne := not_sub_eq_zero_pair hAB
  simp only [apply_pattern_to_segment]
  split_ifs with h
  · exact absurd ((hypot_eq_zero_iff _ _).1 h) hne
  · simp

theorem normalize_pattern_head (pattern : Polyline) (hm : 2 ≤ pattern.length)
    (hends : pattern.headI ≠ pattern.getLastD (0, 0)) :
    (normalize_pattern pattern).head? = some (0, 0) := by
  have hne := not_sub_eq_zero_pair hends
  simp only [normalize_pattern]
  split_ifs with h1 h2
  · omega
  · exact absurd ((hypot_eq_zero_iff _ _).1 h2) hne
  · obtain ⟨p, l, rfl⟩ := exists_cons_of_two_le hm
    simp only [List.map_cons, List.head?_cons, Option.some.injEq, List.headI]
    norm_num

theorem normalize_pattern_last (pattern : Polyline) (hm : 2 ≤ pattern.length)
    (hends : pattern.headI ≠ pattern.getLastD (0, 0)) :
    (normalize_pattern pattern).getLast? = some (1, 0) := by
  have hne := not_sub_eq_zero_pair hends
  simp only [normalize_pattern]
  split_ifs with h1 h2
  · omega
  · exact absurd ((hypot_eq_zero_iff _ _).1 h2) hne
  · obtain ⟨p, l, rfl⟩ := exists_cons_of_two_le hm
    rw [List.getLast?_map]
    obtain ⟨q, hq⟩ := Option.isSome_iff_exists.mp
      (List.getLast?_isSome.mpr (List.cons_ne_nil p l))
    have hgd : (p :: l).getLastD (0, 0) = q := by
      rw [List.getLastD_eq_getLast?, hq]
      rfl
    rw [hgd] at hne
    rw [hq, hgd]
    simp only [List.headI] at hne ⊢
    rw [Option.map_some']
    set dx := q.1 - p.1 with hdx
    set dy := q.2 - p.2 with hdy
    have hL : hypot dx dy ≠ 0 := fun h => hne ((hypot_eq_zero_iff _ _).1 h)
    have hc := cos_atan2 dy dx hne
    have hs := sin_atan2 dy dx
    have hLL := hypot_mul_self dx dy
    rw [Option.some.injEq, Real.cos_neg, Real.sin_neg, hc, hs, Prod.mk.injEq]
    constructor
    · field_simp
      linarith [hLL]
    · field_simp
      ring

theorem apply_pattern_to_segment_head (up : Polyline) (A B : Point)
    (hup : up.head? = some (0, 0)) (hAB : A ≠ B) :
    (apply_pattern_to_segment up (A, B)).head? = some A := by
  have hne := not_sub_eq_zero_pair hAB
  simp only [apply_pattern_to_segment]
  split_ifs with h
  · exact absurd ((hypot_eq_zero_iff _ _).1 h) hne
  · rw [List.head?_map, hup, Option.map_some', Option.some.injEq]
    norm_num

theorem apply_pattern_to_segment_last (up : Polyline) (A B : Point)
    (hup : up.getLast? = some (1, 0)) (hAB : A ≠ B) :
    (apply_pattern_to_segment up (A, B)).getLast? = some B := by
  have hne := not_sub_eq_zero_pair hAB
  have hL : hypot (B.1 - A.1) (B.2 - A.2) ≠ 0 :=
    fun h => hne ((hypot_eq_zero_iff _ _).1 h)
  have hc := cos_atan2 (B.2 - A.2) (B.1 - A.1) hne
  have hs := sin_atan2 (B.2 - A.2) (B.1 - A.1)
  simp only [apply_pattern_to_segment]
  split_ifs with h
  · exact absurd ((hypot_eq_zero_iff _ _).1 h) hne
  · rw [List.getLast?_map, hup, Option.map_some', Option.some.injEq]
    rw [Prod.ext_iff]
    constructor
    · simp only [hc, hs]
      field_simp
    · simp only [hc, hs]
      field_simp

/-- C1: for every non-degenerate pattern (at least 2 points, first and last
points distinct) and every segment (A, B) of nonzero length, the transformed
point list produced for that segment begins exactly at A and ends exactly at
B; equivalently the normalized unit pattern's first point is (0, 0) and its
last point is (1, 0), so substitution preserves segment endpoints (and hence
does so in every recursion round). -/
theorem substitution_preserves_endpoints (pattern : Polyline) (A B : Point)
    (hm : 2 ≤ pattern.length)
    (hends : pattern.headI ≠ pattern.getLastD (0, 0))
    (hAB : A ≠ B) :
    (normalize_pattern pattern).head? = some (0, 0) ∧
    (normalize_pattern pattern).getLast? = some (1, 0) ∧
    (apply_pattern_to_segment (normalize_pattern pattern) (A, B)).head? = some A ∧
    (apply_pattern_to_segment (normalize_pattern pattern) (A, B)).getLast? = some B := by
  have h1 := normalize_pattern_head pattern hm hends
  have h2 := normalize_pattern_last pattern hm hends
  exact ⟨h1, h2, apply_pattern_to_segment_head _ A B h1 hAB,
    apply_pattern_to_segment_last _ A B h2 hAB⟩

/-- Witness for C1: the three-point bump pattern [(0,0), (4,4), (8,0)] applied
to the segment from (0,0) to (2,0). -/
theorem substitution_preserves_endpoints_witness :
    2 ≤ ([((0 : ℝ), (0 : ℝ)), (4, 4), (8, 0)] : Polyline).length ∧
    ([((0 : ℝ), (0 : ℝ)), (4, 4), (8, 0)] : Polyline).headI ≠
      ([((0 : ℝ), (0 : ℝ)), (4, 4), (8, 0)] : Polyline).getLastD (0, 0) ∧
    (((0 : ℝ), (0 : ℝ)) : Point) ≠ ((2 : ℝ), (0 : ℝ)) ∧
    (apply_pattern_to_segment
        (normalize_pattern [((0 : ℝ), (0 : ℝ)), (4, 4), (8, 0)])
        (((0 : ℝ), (0 : ℝ)), ((2 : ℝ), (0 : ℝ)))).head? = some ((0 : ℝ), (0 : ℝ)) := by
  refine ⟨by norm_num, by norm_num [Prod.ext_iff, List.headI],
    by norm_num [Prod.ext_iff], ?_⟩
  exact (substitution_preserves_endpoints _ _ _ (by norm_num)
    (by norm_num [Prod.ext_iff, List.headI]) (by norm_num [Prod.ext_iff])).2.2.1

/-- The index list of the segment loop in FractalGenerator._apply_recursion:
every point index for a closed shape (the % wraparound supplies the closing
segment back to the first point), every index but the last for an open one. -/
def loop_range (num_points : ℕ) (is_closed_flag : Bool) : List ℕ :=
  if is_closed_flag then List.range num_points else List.range (num_points - 1)

/-- One pass of the loop body of FractalGenerator._apply_recursion: substitute
the pattern into every segment in order, dropping the leading point of every
segment after the first (Python's transformed[1:]). -/
noncomputable def one_round (unit_pattern : Polyline) (polyline : Polyline)
    (is_closed_flag : Bool) : Polyline :=
  (loop_range polyline.length is_closed_flag).flatMap fun i =>
    let segment := (polyline.getD i (0, 0),
      polyline.getD ((i + 1) % polyline.length) (0, 0))
    let transformed := apply_pattern_to_segment unit_pattern segment
    if 0 < i then transformed.tail else transformed

/-- FractalGenerator._apply_recursion.  depth is a Python int, modelled as an
integer; depth <= 0 returns the polyline unchanged, otherwise one substitution
round feeds the recursive call at depth - 1. -/
noncomputable def apply_recursion (unit_pattern : Polyline) (polyline : Polyline)
    (depth : ℤ) (is_closed_flag : Bool) : Polyline :=
  if depth ≤ 0 then polyline
  else apply_recursion unit_pattern (one_round unit_pattern polyline is_closed_flag)
    (depth - 1) is_closed_flag
termination_by depth.toNat
decreasing_by omega

/-- FractalGenerator._points_to_polyline: a flat coordinate list
[x0, y0, x1, y1, ...] as a point list.  (On an odd-length list Python raises
IndexError at the stray final coordinate; the claims only concern even-length
lists, for which the final wildcard case is only reached with an empty rest.) -/
def points_to_polyline : List ℝ → Polyline
  | x :: y :: rest => (x, y) :: points_to_polyline rest
  | _ => []

/-- FractalGenerator._polyline_to_points: flatten a point list back into
[x0, y0, x1, y1, ...]. -/
def polyline_to_points : Polyline → List ℝ
  | [] => []
  | (x, y) :: rest => x :: y :: polyline_to_points rest

/-- The state built by the FractalGenerator constructor: base shapes as
polylines, the closed flags, and the normalized unit pattern. -/
structure FractalGenerator where
  base_shapes_polylines : List Polyline
  is_closed_flags : List Bool
  unit_pattern : Polyline

/-- FractalGenerator.__init__ from the raw constructor arguments. -/
noncomputable def FractalGenerator.init (base_shapes_points : List (List ℝ))
    (pattern_points : List ℝ) (is_closed_flags : List Bool) : FractalGenerator :=
  ⟨base_shapes_points.map points_to_polyline, is_closed_flags,
    normalize_pattern (points_to_polyline pattern_points)⟩

/-- The loop of FractalGenerator.generate over
zip(base_shapes_polylines, is_closed_flags): a shape with fewer than 2 points
is skipped, every other is substituted depth times and flattened. -/
noncomputable def generate_loop (unit_pattern : Polyline) (depth : ℤ) :
    List (Polyline × Bool) → List (List ℝ)
  | [] => []
  | (polyline, is_closed_flag) :: rest =>
    if polyline.length < 2 then generate_loop unit_pattern depth rest
    else
      polyline_to_points (apply_recursion unit_pattern polyline depth is_closed_flag) ::
        generate_loop unit_pattern depth rest

/-- FractalGenerator.generate. -/
noncomputable def FractalGenerator.generate (g : FractalGenerator) (depth : ℤ) :
    List (List ℝ) :=
  generate_loop g.unit_pattern depth (g.base_shapes_polylines.zip g.is_closed_flags)

theorem apply_recursion_nonpos (up poly : Polyline) (depth : ℤ) (closed : Bool)
    (h : depth ≤ 0) : apply_recursion up poly depth closed = poly := by
  unfold apply_recursion
  rw [if_pos h]

theorem apply_recursion_one (up poly : Polyline) (closed : Bool) :
    apply_recursion up poly 1 closed = one_round up poly closed := by
  unfold apply_recursion
  rw [if_neg (by norm_num)]
  exact apply_recursion_nonpos _ _ _ _ (by norm_num)

theorem length_flatMap {α β : Type} (l : List α) (f : α → List β) :
    (l.flatMap f).length = (l.map fun a => (f a).length).sum := by
  induction l with
  | nil => rfl
  | cons a l ih => simp [List.flatMap_cons, ih]

theorem one_round_length (up poly : Polyline) (closed : Bool)
    (hseg : ∀ i ∈ loop_range poly.length closed,
      poly.getD i (0, 0) ≠ poly.getD ((i + 1) % poly.length) (0, 0)) :
    (one_round up poly closed).length =
      ((loop_range poly.length closed).map fun i =>
        if 0 < i then up.length - 1 else up.length).sum := by
  unfold one_round
  rw [length_flatMap]
  congr 1
  apply List.map_congr_left
  intro i hi
  have hlen := apply_pattern_to_segment_length_of_ne up _ _ (hseg i hi)
  split_ifs with h0
  · rw [List.length_tail, hlen]
  · exact hlen

theorem sum_map_ite_head (k m c : ℕ) (hk : 1 ≤ k) :
    ((List.range k).map fun i => if 0 < i then c else m).sum = m + (k - 1) * c := by
  induction k with
  | zero => omega
  | succ n ih =>
    rw [List.range_succ, List.map_append, List.sum_append]
    cases n with
    | zero => simp
    | succ n2 =>
      rw [ih (by omega)]
      have h1 : ((List.map (fun i => if 0 < i then c else m) [n2 + 1])).sum = c := by
        simp
      rw [h1]
      have h2 : n2 + 1 - 1 = n2 := by omega
      have h3 : n2 + 1 + 1 - 1 = n2 + 1 := by omega
      rw [h2, h3]
      ring

/-- C2 (amended): for a base polyline with n >= 2 points, a non-degenerate
pattern with m >= 2 points, and no zero-length segments, one substitution
round yields exactly (n-1)*(m-1)+1 points when the polyline is open and
exactly n*(m-1)+1 points when it is closed (the leading point of every
segment after the first is dropped, but the closing segment's trailing copy
of the first point is kept). -/
theorem one_substitution_point_count (pattern poly : Polyline) (closed : Bool)
    (hm : 2 ≤ pattern.length)
    (hends : pattern.headI ≠ pattern.getLastD (0, 0))
    (hn : 2 ≤ poly.length)
    (hseg : ∀ i ∈ loop_range poly.length closed,
      poly.getD i (0, 0) ≠ poly.getD ((i + 1) % poly.length) (0, 0)) :
    (apply_recursion (normalize_pattern pattern) poly 1 closed).length =
      if closed then poly.length * (pattern.length - 1) + 1
      else (poly.length - 1) * (pattern.length - 1) + 1 := by
  rw [apply_recursion_one, one_round_length _ _ _ hseg, normalize_pattern_length]
  obtain ⟨a, ha⟩ := Nat.exists_eq_add_of_le hm
  obtain ⟨b, hb⟩ := Nat.exists_eq_add_of_le hn
  cases closed with
  | true =>
    simp only [loop_range, if_pos]
    rw [sum_map_ite_head _ _ _ (by omega), ha, hb]
    have e1 : 2 + a - 1 = a + 1 := by omega
    have e2 : 2 + b - 1 = b + 1 := by omega
    rw [e1, e2]
    ring
  | false =>
    simp only [loop_range, Bool.false_eq_true, if_false]
    rw [sum_map_ite_head _ _ _ (by omega), ha, hb]
    have e1 : 2 + a - 1 = a + 1 := by omega
    have e2 : 2 + b - 1 = b + 1 := by omega
    have e3 : 2 + b - 1 - 1 = b := by omega
    rw [e1, e3, e2]
    ring

/-- Witness for C2 at the open two-point base [(0,0), (1,0)] and the pattern
[(0,0), (1,0)]: one round yields (2-1)*(2-1)+1 = 2 points. -/
theorem one_substitution_point_count_witness :
    2 ≤ ([((0 : ℝ), (0 : ℝ)), (1, 0)] : Polyline).length ∧
    ([((0 : ℝ), (0 : ℝ)), (1, 0)] : Polyline).headI ≠
      ([((0 : ℝ), (0 : ℝ)), (1, 0)] : Polyline).getLastD (0, 0) ∧
    (∀ i ∈ loop_range ([((0 : ℝ), (0 : ℝ)), (1, 0)] : Polyline).length false,
      ([((0 : ℝ), (0 : ℝ)), (1, 0)] : Polyline).getD i (0, 0) ≠
        ([((0 : ℝ), (0 : ℝ)), (1, 0)] : Polyline).getD
          ((i + 1) % ([((0 : ℝ), (0 : ℝ)), (1, 0)] : Polyline).length) (0, 0)) ∧
    (apply_recursion (normalize_pattern [((0 : ℝ), (0 : ℝ)), (1, 0)])
      [((0 : ℝ), (0 : ℝ)), (1, 0)] 1 false).length = 2 := by
  have hseg : ∀ i ∈ loop_range ([((0 : ℝ), (0 : ℝ)), (1, 0)] : Polyline).length false,
      ([((0 : ℝ), (0 : ℝ)), (1, 0)] : Polyline).getD i (0, 0) ≠
        ([((0 : ℝ), (0 : ℝ)), (1, 0)] : Polyline).getD
          ((i + 1) % ([((0 : ℝ), (0 : ℝ)), (1, 0)] : Polyline).length) (0, 0) := by
    intro i hi
    have hlr : loop_range ([((0 : ℝ), (0 : ℝ)), (1, 0)] : Polyline).length false = [0] :=
      rfl
    rw [hlr] at hi
    simp only [List.mem_singleton] at hi
    subst hi
    norm_num [List.getD_cons_zero, List.getD_cons_succ, Prod.ext_iff]
  refine ⟨by norm_num, by norm_num [Prod.ext_iff, List.headI], hseg, ?_⟩
  have h := one_substitution_point_count [((0 : ℝ), (0 : ℝ)), (1, 0)]
    [((0 : ℝ), (0 : ℝ)), (1, 0)] false (by norm_num)
    (by norm_num [Prod.ext_iff, List.headI]) (by norm_num) hseg
  simpa using h

/-- C2 counterexample: a closed triangle (n = 3 points) substituted once with
the non-degenerate 2-point pattern [(0,0), (1,0)] (m = 2) yields 4 points,
not n*(m-1) = 3 as the claim's closed-polyline formula states. -/
theorem closed_point_count_counterexample :
    (apply_recursion (normalize_pattern [((0 : ℝ), (0 : ℝ)), (1, 0)])
      [((0 : ℝ), (0 : ℝ)), (1, 0), (0, 1)] 1 true).length ≠
      ([((0 : ℝ), (0 : ℝ)), (1, 0), (0, 1)] : Polyline).length *
        (([((0 : ℝ), (0 : ℝ)), (1, 0)] : Polyline).length - 1) := by
  have hseg : ∀ i ∈ loop_range ([((0 : ℝ), (0 : ℝ)), (1, 0), (0, 1)] : Polyline).length true,
      ([((0 : ℝ), (0 : ℝ)), (1, 0), (0, 1)] : Polyline).getD i (0, 0) ≠
        ([((0 : ℝ), (0 : ℝ)), (1, 0), (0, 1)] : Polyline).getD
          ((i + 1) % ([((0 : ℝ), (0 : ℝ)), (1, 0), (0, 1)] : Polyline).length) (0, 0) := by
    intro i hi
    have hlr : loop_range ([((0 : ℝ), (0 : ℝ)), (1, 0), (0, 1)] : Polyline).length true =
        [0, 1, 2] := rfl
    rw [hlr] at hi
    simp only [List.mem_cons, List.mem_singleton, List.not_mem_nil, or_false] at hi
    rcases hi with rfl | rfl | rfl <;>
      norm_num [List.getD_cons_zero, List.getD_cons_succ, Prod.ext_iff]
  rw [apply_recursion_one, one_round_length _ _ _ hseg, normalize_pattern_length]
  decide

/-- C3 (amended): if the pattern has fewer than 2 points, or its first and
last points coincide, no degenerate flag is recorded: normalization simply
returns the raw pattern unchanged, and substitution then applies this raw
pattern to every nonzero-length segment like any other pattern (one output
point per raw pattern point, not a copy of the segment endpoints); only a
zero-length segment is copied as [A, B]. -/
theorem degenerate_pattern_behaviour (pattern : Polyline)
    (hdeg : pattern.length < 2 ∨ pattern.headI = pattern.getLastD (0, 0)) :
    normalize_pattern pattern = pattern ∧
    (∀ A B : Point, A ≠ B →
      (apply_pattern_to_segment (normalize_pattern pattern) (A, B)).length =
        pattern.length) ∧
    (∀ A B : Point, A = B →
      apply_pattern_to_segment (normalize_pattern pattern) (A, B) = [A, B]) := by
  have hid : normalize_pattern pattern = pattern := by
    simp only [normalize_pattern]
    split_ifs with h1 h2
    · rfl
    · rfl
    · rcases hdeg with h | h
      · omega
      · refine absurd ?_ h2
        rw [← h]
        simp [hypot]
  refine ⟨hid, ?_, ?_⟩
  · intro A B hAB
    rw [hid]
    exact apply_pattern_to_segment_length_of_ne pattern A B hAB
  · rintro A B rfl
    simp only [apply_pattern_to_segment]
    rw [if_pos (by simp [hypot])]

/-- Witness for C3 at the degenerate three-point pattern
[(0,0), (1,1), (0,0)], whose first and last points coincide. -/
theorem degenerate_pattern_behaviour_witness :
    (([((0 : ℝ), (0 : ℝ)), (1, 1), (0, 0)] : Polyline).length < 2 ∨
      ([((0 : ℝ), (0 : ℝ)), (1, 1), (0, 0)] : Polyline).headI =
        ([((0 : ℝ), (0 : ℝ)), (1, 1), (0, 0)] : Polyline).getLastD (0, 0)) ∧
    normalize_pattern [((0 : ℝ), (0 : ℝ)), (1, 1), (0, 0)] =
      [((0 : ℝ), (0 : ℝ)), (1, 1), (0, 0)] := by
  have hdeg : (([((0 : ℝ), (0 : ℝ)), (1, 1), (0, 0)] : Polyline).length < 2 ∨
      ([((0 : ℝ), (0 : ℝ)), (1, 1), (0, 0)] : Polyline).headI =
        ([((0 : ℝ), (0 : ℝ)), (1, 1), (0, 0)] : Polyline).getLastD (0, 0)) :=
    Or.inr rfl
  exact ⟨hdeg, (degenerate_pattern_behaviour _ hdeg).1⟩

/-- C3 counterexample: for the degenerate pattern [(0,0), (1,1), (0,0)]
(coincident endpoints) and the nonzero segment from (0,0) to (1,0), the
substitution output is the transformed raw pattern (3 points), not the claimed
no-op copy [A, B] of the segment endpoints. -/
theorem degenerate_no_op_counterexample :
    apply_pattern_to_segment (normalize_pattern [((0 : ℝ), (0 : ℝ)), (1, 1), (0, 0)])
      (((0 : ℝ), (0 : ℝ)), ((1 : ℝ), (0 : ℝ))) ≠
      [(((0 : ℝ), (0 : ℝ)) : Point), ((1 : ℝ), (0 : ℝ))] := by
  intro hcontra
  have hlen := congrArg List.length hcontra
  rw [apply_pattern_to_segment_length_of_ne _ _ _ (by norm_num [Prod.ext_iff]),
    normalize_pattern_length] at hlen
  simp at hlen

theorem polyline_roundtrip : ∀ (s : List ℝ), Even s.length →
    polyline_to_points (points_to_polyline s) = s
  | [], _ => rfl
  | [x], h => by
    rcases h with ⟨k, hk⟩
    simp at hk
    omega
  | x :: y :: rest, h => by
    have hr : Even rest.length := by
      rcases h with ⟨k, hk⟩
      simp only [List.length_cons] at hk
      exact ⟨k - 1, by omega⟩
    show x :: y :: polyline_to_points (points_to_polyline rest) = x :: y :: rest
    rw [polyline_roundtrip rest hr]

theorem generate_loop_nonpos (up : Polyline) (depth : ℤ) (h : depth ≤ 0) :
    ∀ l : List (Polyline × Bool), generate_loop up depth l = generate_loop up 0 l
  | [] => rfl
  | (poly, fl) :: rest => by
    simp only [generate_loop]
    rw [apply_recursion_nonpos _ _ _ _ h, apply_recursion_nonpos _ _ _ _ le_rfl,
      generate_loop_nonpos up depth h rest]

theorem generate_loop_zip_id (up : Polyline) :
    ∀ (shapes : List (List ℝ)) (flags : List Bool),
    shapes.length ≤ flags.length →
    (∀ s ∈ shapes, Even s.length ∧ 2 ≤ (points_to_polyline s).length) →
    generate_loop up 0 ((shapes.map points_to_polyline).zip flags) = shapes
  | [], _, _, _ => rfl
  | s :: ss, [], hlen, _ => by simp at hlen
  | s :: ss, f :: fs, hlen, hshapes => by
    simp only [List.map_cons, List.zip_cons_cons, generate_loop]
    have hs := hshapes s (by simp)
    rw [if_neg (not_lt.mpr hs.2), apply_recursion_nonpos _ _ _ _ le_rfl,
      polyline_roundtrip s hs.1]
    congr 1
    exact generate_loop_zip_id up ss fs (by simpa using hlen)
      (fun t ht => hshapes t (List.mem_cons_of_mem s ht))

/-- C7 (amended): generate(0) returns every processed base shape's point list
unchanged — every shape with at least 2 points that is paired with a closed
flag (and an even-length coordinate list) — and any depth <= 0 (in particular
any negative depth) behaves identically to depth 0; shapes with fewer than
2 points are omitted rather than returned. -/
theorem depth_zero_identity (g : FractalGenerator) (depth : ℤ)
    (shapes : List (List ℝ)) (pattern_points : List ℝ) (flags : List Bool)
    (hd : depth ≤ 0)
    (hflags : shapes.length ≤ flags.length)
    (hshapes : ∀ s ∈ shapes, Even s.length ∧ 2 ≤ (points_to_polyline s).length) :
    FractalGenerator.generate g depth = FractalGenerator.generate g 0 ∧
    FractalGenerator.generate (FractalGenerator.init shapes pattern_points flags) 0 =
      shapes := by
  constructor
  · exact generate_loop_nonpos g.unit_pattern depth hd _
  · exact generate_loop_zip_id _ shapes flags hflags hshapes

/-- Witness for C7 at depth -3 with the single square base shape
[0,0,1,0,1,1,0,1] and pattern [0,0,1,0]. -/
theorem depth_zero_identity_witness :
    (-3 : ℤ) ≤ 0 ∧
    ([[(0 : ℝ), 0, 1, 0, 1, 1, 0, 1]] : List (List ℝ)).length ≤ ([true] : List Bool).length ∧
    (∀ s ∈ ([[(0 : ℝ), 0, 1, 0, 1, 1, 0, 1]] : List (List ℝ)),
      Even s.length ∧ 2 ≤ (points_to_polyline s).length) ∧
    FractalGenerator.generate
      (FractalGenerator.init [[(0 : ℝ), 0, 1, 0, 1, 1, 0, 1]] [0, 0, 1, 0] [true]) 0 =
      [[(0 : ℝ), 0, 1, 0, 1, 1, 0, 1]] := by
  have hshapes : ∀ s ∈ ([[(0 : ℝ), 0, 1, 0, 1, 1, 0, 1]] : List (List ℝ)),
      Even s.length ∧ 2 ≤ (points_to_polyline s).length := by
    intro s hs
    simp only [List.mem_singleton] at hs
    subst hs
    refine ⟨⟨4, by simp⟩, ?_⟩
    show 2 ≤ (points_to_polyline [(0 : ℝ), 0, 1, 0, 1, 1, 0, 1]).length
    norm_num [points_to_polyline]
  refine ⟨by norm_num, by norm_num, hshapes, ?_⟩
  exact (depth_zero_identity
    (FractalGenerator.init [[(0 : ℝ), 0, 1, 0, 1, 1, 0, 1]] [0, 0, 1, 0] [true]) (-3)
    [[(0 : ℝ), 0, 1, 0, 1, 1, 0, 1]] [0, 0, 1, 0] [true]
    (by norm_num) (by norm_num) hshapes).2

/-- C7 counterexample: a base shape holding a single point (flat list [1, 2])
is dropped from the output of generate(0), so generate(0) does not return
every input base shape's point list unchanged. -/
theorem depth_zero_identity_counterexample :
    FractalGenerator.generate (FractalGenerator.init [[(1 : ℝ), 2]] [0, 0, 1, 0] [false]) 0 ≠
      [[(1 : ℝ), 2]] := by
  have h : FractalGenerator.generate
      (FractalGenerator.init [[(1 : ℝ), 2]] [0, 0, 1, 0] [false]) 0 = [] := rfl
  rw [h]
  simp

theorem generate_loop_filter (up : Polyline) (depth : ℤ) :
    ∀ (shapes : List (List ℝ)) (flags : List Bool),
    generate_loop up depth ((shapes.map points_to_polyline).zip flags) =
      ((shapes.zip flags).filter fun sf =>
          decide (2 ≤ (points_to_polyline sf.1).length)).map fun sf =>
        polyline_to_points
          (apply_recursion up (points_to_polyline sf.1) depth sf.2)
  | [], _ => rfl
  | _ :: _, [] => rfl
  | s :: ss, f :: fs => by
    simp only [List.map_cons, List.zip_cons_cons, generate_loop, List.filter_cons]
    by_cases h2 : 2 ≤ (points_to_polyline s).length
    · rw [if_neg (not_lt.mpr h2)]
      rw [if_pos (by simpa using h2), List.map_cons]
      congr 1
      exact generate_loop_filter up depth ss fs
    · rw [if_pos (not_le.mp h2)]
      rw [if_neg (by simpa using h2)]
      exact generate_loop_filter up depth ss fs

/-- C9: given a closed-flag list aligned one-to-one with the base shape list,
generate returns exactly one output point list per base shape with at least
2 points, in the order the shapes were supplied — the filtered-and-mapped
shape list below — and a base shape with fewer than 2 points is absent from
the output entirely. -/
theorem generate_one_output_per_shape (shapes : List (List ℝ))
    (pattern_points : List ℝ) (flags : List Bool) (depth : ℤ)
    (hflags : shapes.length = flags.length) :
    FractalGenerator.generate
        (FractalGenerator.init shapes pattern_points flags) depth =
      ((shapes.zip flags).filter fun sf =>
          decide (2 ≤ (points_to_polyline sf.1).length)).map fun sf =>
        polyline_to_points
          (apply_recursion (normalize_pattern (points_to_polyline pattern_points))
            (points_to_polyline sf.1) depth sf.2) :=
  generate_loop_filter _ depth shapes flags

/-- Witness for C9: two base shapes, an open square edge pair [0,0,1,0] and a
single point [5,5]; only the first appears in the output. -/
theorem generate_one_output_per_shape_witness :
    ([[(0 : ℝ), 0, 1, 0], [5, 5]] : List (List ℝ)).length =
      ([false, true] : List Bool).length ∧
    FractalGenerator.generate
        (FractalGenerator.init [[(0 : ℝ), 0, 1, 0], [5, 5]] [0, 0, 1, 0]
          [false, true]) 1 =
      ((([[(0 : ℝ), 0, 1, 0], [5, 5]] : List (List ℝ)).zip [false, true]).filter
          fun sf => decide (2 ≤ (points_to_polyline sf.1).length)).map fun sf =>
        polyline_to_points
          (apply_recursion (normalize_pattern (points_to_polyline [(0 : ℝ), 0, 1, 0]))
            (points_to_polyline sf.1) 1 sf.2) :=
  ⟨rfl, generate_one_output_per_shape [[(0 : ℝ), 0, 1, 0], [5, 5]] [0, 0, 1, 0]
    [false, true] 1 rfl⟩

theorem generate_loop_length (up : Polyline) (depth : ℤ) :
    ∀ (shapes : List (List ℝ)) (flags : List Bool),
    (generate_loop up depth ((shapes.map points_to_polyline).zip flags)).length =
      (shapes.take (min shapes.length flags.length)).countP
        fun s => decide (2 ≤ (points_to_polyline s).length)
  | [], flags => by simp [generate_loop]
  | s :: ss, [] => by simp [generate_loop]
  | s :: ss, f :: fs => by
    simp only [List.map_cons, List.zip_cons_cons, generate_loop, List.length_cons,
      Nat.succ_min_succ, List.take_succ_cons, List.countP_cons]
    have hzip : (List.map points_to_polyline ss).zip fs =
        List.zipWith Prod.mk (List.map points_to_polyline ss) fs := rfl
    rw [← hzip]
    by_cases h2 : 2 ≤ (points_to_polyline s).length
    · rw [if_neg (not_lt.mpr h2), List.length_cons,
        generate_loop_length up depth ss fs]
      simp [h2]
    · rw [if_pos (not_le.mp h2), generate_loop_length up depth ss fs]
      simp [h2]

/-- C10: generate silently truncates to the zip of base shapes with closed
flags: for every depth, the output length is the number of shapes with at
least 2 points among the first min(number of shapes, number of flags) shapes,
so shapes beyond a shorter flag list are omitted and excess flags ignored. -/
theorem generate_output_length (shapes : List (List ℝ))
    (pattern_points : List ℝ) (flags : List Bool) (depth : ℤ) :
    (FractalGenerator.generate
        (FractalGenerator.init shapes pattern_points flags) depth).length =
      (shapes.take (min shapes.length flags.length)).countP
        fun s => decide (2 ≤ (points_to_polyline s).length) :=
  generate_loop_length _ depth shapes flags

/-- Python's range(start, stop, step) as its documented semantics: the list
[start + step*i for 0 <= i < max(0, ceil((stop-start)/step))].  A zero step
raises ValueError in Python; it is modelled as the empty range (the generator
only ever uses its angle_step argument, a positive step, here). -/
def pythonRange (start stop step : ℤ) : List ℤ :=
  if 0 < step then
    (List.range ((stop - start + step - 1) / step).toNat).map fun i : ℕ =>
      start + step * (i : ℤ)
  else if step < 0 then
    (List.range ((start - stop + (-step) - 1) / (-step)).toNat).map fun i : ℕ =>
      start + step * (i : ℤ)
  else []

/-- SpiroGenerator._check_and_scale_parameters on the stored parameters
(R, r, d): when the smallest positive parameter is below 1.0 all three are
multiplied by the power of ten 10^n, n = -floor(log10 min_value) + 1.
Returns (scaled_R, scaled_r, scaled_d, scale_factor). -/
noncomputable def check_and_scale (R r d : ℝ) : ℝ × ℝ × ℝ × ℝ :=
  let positive_values := [R, r, d].filter fun val => decide (0 < val)
  match positive_values with
  | [] => (R, r, d, 1)
  | v :: vs =>
    let min_value := vs.foldl min v
    if min_value < 1 then
      let n : ℤ := -⌊Real.logb 10 min_value⌋ + 1
      let scale_factor : ℝ := 10 ^ n
      (R * scale_factor, r * scale_factor, d * scale_factor, scale_factor)
    else (R, r, d, 1)

/-- The loop body of SpiroGenerator.generate: the hypotrochoid point sampled
at theta_deg degrees for the precomputed R_scaled, k, l and scale_factor,
divided by the scale factor when one was applied and translated to the fixed
circle's center. -/
noncomputable def spiro_point (fixed_center : Point) (R_scaled k l scale_factor : ℝ)
    (theta_deg : ℤ) : Point :=
  let theta_rad := (theta_deg : ℝ) * Real.pi / 180
  let x_rel := R_scaled * ((1 - k) * Real.cos theta_rad +
    l * k * Real.cos (((1 - k) / k) * theta_rad))
  let y_rel := R_scaled * ((1 - k) * Real.sin theta_rad -
    l * k * Real.sin (((1 - k) / k) * theta_rad))
  let x_rel := if scale_factor ≠ 1 then x_rel / scale_factor else x_rel
  let y_rel := if scale_factor ≠ 1 then y_rel / scale_factor else y_rel
  (fixed_center.1 + x_rel, fixed_center.2 + y_rel)

/-- The rotation count of SpiroGenerator.generate: numerator and denominator
are the rounded scaled radii difference and rolling radius, q is
denominator // gcd with the code's zero guards, clamped at the practical
limit 50. -/
noncomputable def spiro_q (R_scaled r_scaled : ℝ) : ℤ :=
  let numerator := round (R_scaled - r_scaled)
  let denominator := round r_scaled
  let gcd_value : ℤ := if denominator ≠ 0 then (Int.gcd numerator denominator : ℤ) else 1
  let q : ℤ := if gcd_value ≠ 0 then denominator / gcd_value else 1
  min q 50

/-- SpiroGenerator.generate on the stored parameters: fixed center, radii R
and r, and pen distance d (the constructor sets d = dist(rolling_center,
pen_position)).  The parameters are scaled if needed, k and l are the guarded
ratios, a zero k or l yields the empty list, and otherwise one hypotrochoid
point is produced per theta_deg in range(0, 360*q, angle_step). -/
noncomputable def spiro_generate (fixed_center : Point) (R r d : ℝ)
    (angle_step : ℤ) : List Point :=
  let S := check_and_scale R r d
  let R_scaled := S.1
  let r_scaled := S.2.1
  let d_scaled := S.2.2.1
  let scale_factor := S.2.2.2
  let k := if R_scaled ≠ 0 then r_scaled / R_scaled else 0
  let l := if r_scaled ≠ 0 then d_scaled / r_scaled else 0
  if k = 0 ∨ l = 0 then []
  else
    (pythonRange 0 (360 * spiro_q R_scaled r_scaled) angle_step).map
      (spiro_point fixed_center R_scaled k l scale_factor)

theorem scale_factor_pow (v : ℝ) (h0 : 0 < v) (h1 : v < 1) :
    ∃ m : ℕ, ((10 : ℝ) ^ (-⌊Real.logb 10 v⌋ + 1 : ℤ) = (10 : ℝ) ^ m) ∧
      1 ≤ v * (10 : ℝ) ^ m := by
  have hlog : Real.logb 10 v < 0 := Real.logb_neg (by norm_num) h0 h1
  have hfl : (⌊Real.logb 10 v⌋ : ℝ) ≤ Real.logb 10 v := Int.floor_le _
  have hfneg : ⌊Real.logb 10 v⌋ < 0 := by
    have h := lt_of_le_of_lt hfl hlog
    exact_mod_cast h
  have hn0 : (0 : ℤ) ≤ -⌊Real.logb 10 v⌋ + 1 := by omega
  refine ⟨(-⌊Real.logb 10 v⌋ + 1 : ℤ).toNat, ?_, ?_⟩
  · rw [← zpow_natCast (10 : ℝ) (-⌊Real.logb 10 v⌋ + 1 : ℤ).toNat,
      Int.toNat_of_nonneg hn0]
  · have hv : v = (10 : ℝ) ^ Real.logb 10 v :=
      (Real.rpow_logb (by norm_num) (by norm_num) h0).symm
    have hcast : ((10 : ℝ) ^ (-⌊Real.logb 10 v⌋ + 1 : ℤ).toNat : ℝ) =
        (10 : ℝ) ^ ((((-⌊Real.logb 10 v⌋ + 1 : ℤ).toNat : ℕ) : ℝ)) := by
      rw [Real.rpow_natCast]
    rw [hcast]
    nth_rewrite 1 [hv]
    rw [← Real.rpow_add (by norm_num : (0 : ℝ) < 10)]
    have hexp : (0 : ℝ) ≤ Real.logb 10 v + ((-⌊Real.logb 10 v⌋ + 1 : ℤ).toNat : ℝ) := by
      have htn : (((-⌊Real.logb 10 v⌋ + 1 : ℤ).toNat : ℤ) : ℝ) =
          ((-⌊Real.logb 10 v⌋ + 1 : ℤ) : ℝ) := by
        rw [Int.toNat_of_nonneg hn0]
      push_cast at htn ⊢
      rw [htn]
      linarith
    calc (1 : ℝ) = (10 : ℝ) ^ (0 : ℝ) := (Real.rpow_zero 10).symm
      _ ≤ (10 : ℝ) ^ (Real.logb 10 v + ((-⌊Real.logb 10 v⌋ + 1 : ℤ).toNat : ℝ)) :=
        Real.rpow_le_rpow_of_exponent_le (by norm_num) hexp

theorem check_scale_branch (R r d v : ℝ) (h0 : 0 < v)
    (hmin : ∀ x : ℝ, 0 < x → (x = R ∨ x = r ∨ x = d) → v ≤ x) :
    ∃ m : ℕ,
      (if v < 1 then
          (R * ((10 : ℝ) ^ (-⌊Real.logb 10 v⌋ + 1 : ℤ)),
            r * ((10 : ℝ) ^ (-⌊Real.logb 10 v⌋ + 1 : ℤ)),
            d * ((10 : ℝ) ^ (-⌊Real.logb 10 v⌋ + 1 : ℤ)),
            (10 : ℝ) ^ (-⌊Real.logb 10 v⌋ + 1 : ℤ))
        else (R, r, d, (1 : ℝ))) =
        (R * 10 ^ m, r * 10 ^ m, d * 10 ^ m, (10 : ℝ) ^ m) ∧
      ∀ x : ℝ, 0 < x → (x = R ∨ x = r ∨ x = d) → 1 ≤ x * 10 ^ m := by
  by_cases h1 : v < 1
  · obtain ⟨m, hpow, hbound⟩ := scale_factor_pow v h0 h1
    refine ⟨m, ?_, ?_⟩
    · rw [if_pos h1, hpow]
    · intro x hx hxeq
      calc (1 : ℝ) ≤ v * 10 ^ m := hbound
        _ ≤ x * 10 ^ m :=
          mul_le_mul_of_nonneg_right (hmin x hx hxeq) (by positivity)
  · refine ⟨0, ?_, ?_⟩
    · rw [if_neg h1]
      norm_num
    · intro x hx hxeq
      have h1' : (1 : ℝ) ≤ v := not_lt.mp h1
      simpa using le_trans h1' (hmin x hx hxeq)

theorem check_and_scale_eq (R r d : ℝ) :
    ∃ m : ℕ, check_and_scale R r d =
        (R * 10 ^ m, r * 10 ^ m, d * 10 ^ m, (10 : ℝ) ^ m) ∧
      ∀ x : ℝ, 0 < x → (x = R ∨ x = r ∨ x = d) → 1 ≤ x * 10 ^ m := by
  by_cases hR : 0 < R <;> by_cases hr : 0 < r <;> by_cases hd : 0 < d <;>
    simp only [check_and_scale, List.filter_cons, List.filter_nil,
      decide_eq_true_eq, hR, hr, hd, if_true, if_false, List.foldl]
  · exact check_scale_branch R r d (min (min R r) d) (lt_min (lt_min hR hr) hd)
      (by
        rintro x hx (rfl | rfl | rfl)
        · exact le_trans (min_le_left _ _) (min_le_left _ _)
        · exact le_trans (min_le_left _ _) (min_le_right _ _)
        · exact min_le_right _ _)
  · exact check_scale_branch R r d (min R r) (lt_min hR hr)
      (by
        rintro x hx (rfl | rfl | rfl)
        · exact min_le_left _ _
        · exact min_le_right _ _
        · exact absurd hx hd)
  · exact check_scale_branch R r d (min R d) (lt_min hR hd)
      (by
        rintro x hx (rfl | rfl | rfl)
        · exact min_le_left _ _
        · exact absurd hx hr
        · exact min_le_right _ _)
  · exact check_scale_branch R r d R hR
      (by
        rintro x hx (rfl | rfl | rfl)
        · exact le_refl x
        · exact absurd hx hr
        · exact absurd hx hd)
  · exact check_scale_branch R r d (min r d) (lt_min hr hd)
      (by
        rintro x hx (rfl | rfl | rfl)
        · exact absurd hx hR
        · exact min_le_left _ _
        · exact min_le_right _ _)
  · exact check_scale_branch R r d r hr
      (by
        rintro x hx (rfl | rfl | rfl)
        · exact absurd hx hR
        · exact le_refl x
        · exact absurd hx hd)
  · exact check_scale_branch R r d d hd
      (by
        rintro x hx (rfl | rfl | rfl)
        · exact absurd hx hR
        · exact absurd hx hr
        · exact le_refl x)
  · refine ⟨0, by norm_num, ?_⟩
    rintro x hx (rfl | rfl | rfl)
    · exact absurd hx hR
    · exact absurd hx hr
    · exact absurd hx hd

theorem one_le_round_of_one_le (x : ℝ) (hx : 1 ≤ x) : 1 ≤ round x := by
  rw [round_eq, Int.le_floor]
  push_cast
  linarith

theorem spiro_q_eq (R_scaled r_scaled : ℝ) (hden : round r_scaled ≠ 0) :
    spiro_q R_scaled r_scaled =
      min (round r_scaled /
        (Int.gcd (round (R_scaled - r_scaled)) (round r_scaled) : ℤ)) 50 := by
  have hg : (Int.gcd (round (R_scaled - r_scaled)) (round r_scaled) : ℤ) ≠ 0 := by
    have h : Int.gcd (round (R_scaled - r_scaled)) (round r_scaled) ≠ 0 :=
      fun h => hden (Int.gcd_eq_zero_iff.mp h).2
    exact_mod_cast h
  simp only [spiro_q]
  rw [if_pos hden, if_pos hg]

theorem spiro_q_ge_one (R_scaled r_scaled : ℝ) (h1 : 1 ≤ r_scaled) :
    1 ≤ spiro_q R_scaled r_scaled := by
  have hden : 1 ≤ round r_scaled := one_le_round_of_one_le _ h1
  rw [spiro_q_eq _ _ (by omega)]
  have hgne : (Int.gcd (round (R_scaled - r_scaled)) (round r_scaled) : ℤ) ≠ 0 := by
    have h : Int.gcd (round (R_scaled - r_scaled)) (round r_scaled) ≠ 0 :=
      fun h => absurd (Int.gcd_eq_zero_iff.mp h).2 (by omega)
    exact_mod_cast h
  have hgpos : 0 < (Int.gcd (round (R_scaled - r_scaled)) (round r_scaled) : ℤ) := by
    have h0 : 0 ≤ (Int.gcd (round (R_scaled - r_scaled)) (round r_scaled) : ℤ) :=
      Int.natCast_nonneg _
    omega
  have hle : (Int.gcd (round (R_scaled - r_scaled)) (round r_scaled) : ℤ) ≤
      round r_scaled :=
    Int.le_of_dvd (by omega) Int.gcd_dvd_right
  rw [le_min_iff]
  refine ⟨?_, by norm_num⟩
  rw [Int.le_ediv_iff_mul_le hgpos]
  omega

theorem ceil_div_int (a b : ℤ) (hb : 0 < b) :
    ⌈(a : ℚ) / (b : ℚ)⌉ = (a + b - 1) / b := by
  have hbQ : (0 : ℚ) < (b : ℚ) := by exact_mod_cast hb
  have h0 := Int.ediv_add_emod (a + b - 1) b
  have hm0 : 0 ≤ (a + b - 1) % b := Int.emod_nonneg _ (by omega)
  have hm1 : (a + b - 1) % b < b := Int.emod_lt_of_pos _ hb
  set q := (a + b - 1) / b with hq
  set m := (a + b - 1) % b with hm
  have key1 : (q - 1) * b < a := by nlinarith [h0, hm0]
  have key2 : a ≤ q * b := by nlinarith [h0, hm1]
  rw [Int.ceil_eq_iff]
  constructor
  · rw [lt_div_iff₀ hbQ]
    exact_mod_cast key1
  · rw [div_le_iff₀ hbQ]
    exact_mod_cast key2

theorem pythonRange_length (stop step : ℤ) (hstep : 0 < step) :
    (pythonRange 0 stop step).length = ((stop + step - 1) / step).toNat := by
  unfold pythonRange
  rw [if_pos hstep, List.length_map, List.length_range, sub_zero]

theorem pythonRange_length_ceil (stop step : ℤ) (hstep : 0 < step) :
    (pythonRange 0 stop step).length = (⌈(stop : ℚ) / (step : ℚ)⌉).toNat := by
  rw [pythonRange_length stop step hstep, ceil_div_int stop step hstep]

theorem pythonRange_head (stop step : ℤ) (hstep : 0 < step) (hstop : 0 < stop) :
    (pythonRange 0 stop step).head? = some 0 := by
  unfold pythonRange
  rw [if_pos hstep]
  have hcount : 0 < ((stop - 0 + step - 1) / step).toNat := by
    have h1 : 1 ≤ (stop - 0 + step - 1) / step := by
      rw [Int.le_ediv_iff_mul_le hstep]
      omega
    omega
  cases hn : ((stop - 0 + step - 1) / step).toNat with
  | zero => rw [hn] at hcount; exact absurd hcount (lt_irrefl 0)
  | succ c =>
    rw [List.range_succ_eq_map]
    simp

theorem spiro_generate_pos_eq (c : Point) (R r d : ℝ) (step : ℤ)
    (hR : 0 < R) (hr : 0 < r) (hd : 0 < d) :
    ∃ m : ℕ,
      check_and_scale R r d = (R * 10 ^ m, r * 10 ^ m, d * 10 ^ m, (10 : ℝ) ^ m) ∧
      1 ≤ r * 10 ^ m ∧
      spiro_generate c R r d step =
        (pythonRange 0 (360 * spiro_q (R * 10 ^ m) (r * 10 ^ m)) step).map
          (spiro_point c (R * 10 ^ m) (r * 10 ^ m / (R * 10 ^ m))
            (d * 10 ^ m / (r * 10 ^ m)) ((10 : ℝ) ^ m)) := by
  obtain ⟨m, heq, hbound⟩ := check_and_scale_eq R r d
  refine ⟨m, heq, hbound r hr (Or.inr (Or.inl rfl)), ?_⟩
  have hRs : R * (10 : ℝ) ^ m ≠ 0 := by positivity
  have hrs : r * (10 : ℝ) ^ m ≠ 0 := by positivity
  have hk : (0 : ℝ) < r * 10 ^ m / (R * 10 ^ m) := by positivity
  have hl : (0 : ℝ) < d * 10 ^ m / (r * 10 ^ m) := by positivity
  simp only [spiro_generate, heq]
  rw [if_pos hRs, if_pos hrs, if_neg (by push_neg; exact ⟨ne_of_gt hk, ne_of_gt hl⟩)]

/-- C5: for positive R, r, d and a positive angle step, generate computes the
rotation count q as round(r)/gcd(round(R - r), round(r)) over the scaled
parameters clamped at 50, and returns exactly ceil(360*q/angle_step) points,
one per sampled degree value theta in {0, angle_step, 2*angle_step, ...}
below 360*q. -/
theorem spiro_generate_count (c : Point) (R r d : ℝ) (step : ℤ)
    (hR : 0 < R) (hr : 0 < r) (hd : 0 < d) (hstep : 0 < step) :
    spiro_q (check_and_scale R r d).1 (check_and_scale R r d).2.1 =
      min ((round (check_and_scale R r d).2.1) /
        (Int.gcd (round ((check_and_scale R r d).1 - (check_and_scale R r d).2.1))
          (round (check_and_scale R r d).2.1) : ℤ)) 50 ∧
    1 ≤ spiro_q (check_and_scale R r d).1 (check_and_scale R r d).2.1 ∧
    (spiro_generate c R r d step).length =
      (⌈((360 * spiro_q (check_and_scale R r d).1 (check_and_scale R r d).2.1 : ℤ) : ℚ) /
        (step : ℚ)⌉).toNat := by
  obtain ⟨m, heq, h1r, hgen⟩ := spiro_generate_pos_eq c R r d step hR hr hd
  rw [heq]
  have hround : round (r * (10 : ℝ) ^ m) ≠ 0 := by
    have := one_le_round_of_one_le _ h1r
    omega
  have hq1 : 1 ≤ spiro_q (R * 10 ^ m) (r * 10 ^ m) := spiro_q_ge_one _ _ h1r
  refine ⟨spiro_q_eq _ _ hround, hq1, ?_⟩
  rw [hgen, List.length_map, pythonRange_length_ceil _ _ hstep]

/-- Witness for C5 at R = 5, r = 3, d = 2, angle step 5. -/
theorem spiro_generate_count_witness :
    (0 : ℝ) < 5 ∧ (0 : ℝ) < 3 ∧ (0 : ℝ) < 2 ∧ (0 : ℤ) < 5 ∧
    (spiro_generate ((0 : ℝ), (0 : ℝ)) 5 3 2 5).length =
      (⌈((360 * spiro_q (check_and_scale 5 3 2).1 (check_and_scale 5 3 2).2.1 : ℤ) : ℚ) /
        ((5 : ℤ) : ℚ)⌉).toNat :=
  ⟨by norm_num, by norm_num, by norm_num, by norm_num,
    (spiro_generate_count ((0 : ℝ), (0 : ℝ)) 5 3 2 5 (by norm_num) (by norm_num)
      (by norm_num) (by norm_num)).2.2⟩

/-- C6 (amended): generate returns the empty list whenever the guarded ratio
k = r/R or l = d/r is zero — in particular whenever R, r or d is zero — and
no division by zero occurs (the ratios are guarded).  For combinations with k
and l both nonzero, a positive rolling radius r and a positive angle step the
result is non-empty; k and l nonzero alone do not suffice, because a negative
r makes the rotation count q negative and the sampling range empty. -/
theorem spiro_degenerate_empty (c : Point) (R r d : ℝ) (step : ℤ) :
    ((R = 0 ∨ r = 0 ∨ d = 0) → spiro_generate c R r d step = []) ∧
    (((if (check_and_scale R r d).1 ≠ 0 then
          (check_and_scale R r d).2.1 / (check_and_scale R r d).1 else 0) = 0 ∨
        (if (check_and_scale R r d).2.1 ≠ 0 then
          (check_and_scale R r d).2.2.1 / (check_and_scale R r d).2.1 else 0) = 0) →
      spiro_generate c R r d step = []) ∧
    ((if (check_and_scale R r d).1 ≠ 0 then
          (check_and_scale R r d).2.1 / (check_and_scale R r d).1 else 0) ≠ 0 →
      (if (check_and_scale R r d).2.1 ≠ 0 then
          (check_and_scale R r d).2.2.1 / (check_and_scale R r d).2.1 else 0) ≠ 0 →
      0 < r → 0 < step →
      spiro_generate c R r d step ≠ []) := by
  have hkl : ∀ hor :
      (if (check_and_scale R r d).1 ≠ 0 then
          (check_and_scale R r d).2.1 / (check_and_scale R r d).1 else 0) = 0 ∨
        (if (check_and_scale R r d).2.1 ≠ 0 then
          (check_and_scale R r d).2.2.1 / (check_and_scale R r d).2.1 else 0) = 0,
      spiro_generate c R r d step = [] := by
    intro hor
    simp only [spiro_generate]
    rw [if_pos hor]
  refine ⟨?_, hkl, ?_⟩
  · intro h0
    obtain ⟨m, heq, _⟩ := check_and_scale_eq R r d
    apply hkl
    rcases h0 with rfl | rfl | rfl
    · left
      rw [heq]
      simp
    · right
      rw [heq]
      simp
    · right
      rw [heq]
      by_cases hrs : r * (10 : ℝ) ^ m ≠ 0 <;> simp [hrs]
  · intro hk hl hr hstep
    obtain ⟨m, heq, hbound⟩ := check_and_scale_eq R r d
    simp only [spiro_generate]
    rw [if_neg (by push_neg; exact ⟨hk, hl⟩)]
    intro hcontra
    have hlen := congrArg List.length hcontra
    rw [List.length_map, heq] at hlen
    have h1r : (1 : ℝ) ≤ r * 10 ^ m := hbound r hr (Or.inr (Or.inl rfl))
    have hq1 : 1 ≤ spiro_q (R * 10 ^ m) (r * 10 ^ m) := spiro_q_ge_one _ _ h1r
    rw [pythonRange_length _ _ hstep] at hlen
    have hpos : 1 ≤ (360 * spiro_q (R * 10 ^ m) (r * 10 ^ m) + step - 1) / step := by
      rw [Int.le_ediv_iff_mul_le hstep]
      omega
    simp only [List.length_nil] at hlen
    omega

/-- C6 counterexample: with R = 5, r = -3, d = 2 the guarded ratios are
k = -3/5 and l = 2/(-3), both nonzero, yet generate produces the empty list:
q = round(-3)/gcd(8, -3) = -3 is negative, so range(0, 360*q, 5) is empty. -/
theorem spiro_nonzero_kl_empty_counterexample :
    ((if (check_and_scale 5 (-3) 2).1 ≠ 0 then
        (check_and_scale 5 (-3) 2).2.1 / (check_and_scale 5 (-3) 2).1 else 0) ≠ 0) ∧
    ((if (check_and_scale 5 (-3) 2).2.1 ≠ 0 then
        (check_and_scale 5 (-3) 2).2.2.1 / (check_and_scale 5 (-3) 2).2.1 else 0) ≠ 0) ∧
    spiro_generate ((0 : ℝ), (0 : ℝ)) 5 (-3) 2 5 = [] := by
  have hcs : check_and_scale 5 (-3) 2 = ((5 : ℝ), (-3 : ℝ), (2 : ℝ), (1 : ℝ)) := by
    have h5 : (0 : ℝ) < 5 := by norm_num
    have h3 : ¬(0 : ℝ) < -3 := by norm_num
    have h2 : (0 : ℝ) < 2 := by norm_num
    simp only [check_and_scale, List.filter_cons, List.filter_nil,
      decide_eq_true_eq, h5, h3, h2, if_true, if_false, List.foldl]
    rw [if_neg (by norm_num [min_def])]
  have hq : spiro_q (5 : ℝ) (-3 : ℝ) = -3 := by
    simp only [spiro_q]
    rw [show round ((5 : ℝ) - -3) = ((8 : ℤ) : ℤ) by
        rw [show ((5 : ℝ) - -3) = ((8 : ℤ) : ℝ) by norm_num, round_intCast],
      show round ((-3 : ℝ)) = ((-3 : ℤ) : ℤ) by
        rw [show ((-3 : ℝ)) = ((-3 : ℤ) : ℝ) by norm_num, round_intCast]]
    rw [if_pos (by norm_num : (-3 : ℤ) ≠ 0)]
    rw [show (Int.gcd 8 (-3) : ℤ) = 1 by decide]
    norm_num
  refine ⟨by rw [hcs]; norm_num, by rw [hcs]; norm_num, ?_⟩
  simp only [spiro_generate, hcs]
  rw [if_neg (by push_neg; constructor <;> norm_num)]
  rw [hq]
  rfl

theorem spiro_q_five_three (m : ℕ) :
    spiro_q ((5 : ℝ) * 10 ^ m) ((3 : ℝ) * 10 ^ m) = 3 := by
  have h2 : ((5 : ℝ) * 10 ^ m - 3 * 10 ^ m) = ((2 * 10 ^ m : ℤ) : ℝ) := by
    push_cast
    ring
  have h3 : ((3 : ℝ) * 10 ^ m) = ((3 * 10 ^ m : ℤ) : ℝ) := by
    push_cast
    ring
  have hpow : ((10 : ℤ) ^ m) ≠ 0 := by positivity
  simp only [spiro_q]
  rw [h2, h3, round_intCast, round_intCast]
  rw [if_pos (by positivity : (3 * 10 ^ m : ℤ) ≠ 0)]
  have hgcd : (Int.gcd (2 * 10 ^ m) (3 * 10 ^ m) : ℤ) = 10 ^ m := by
    rw [Int.gcd_mul_right]
    rw [show Int.gcd 2 3 = 1 from by decide, Int.natAbs_pow]
    push_cast
    norm_num
  rw [hgcd, if_pos hpow, Int.mul_ediv_cancel 3 hpow]
  norm_num

theorem spiro_point_closure (c : Point) (Rs l f : ℝ) :
    spiro_point c Rs (3 / 5) l f (360 * 3) = spiro_point c Rs (3 / 5) l f 0 := by
  have h1 : (((360 * 3 : ℤ) : ℝ)) * Real.pi / 180 = ((3 : ℕ) : ℝ) * (2 * Real.pi) := by
    push_cast
    ring
  have h2 : ((1 - 3 / 5 : ℝ) / (3 / 5)) * (((360 * 3 : ℤ) : ℝ) * Real.pi / 180) =
      ((2 : ℕ) : ℝ) * (2 * Real.pi) := by
    push_cast
    ring
  have h0 : (((0 : ℤ) : ℝ)) * Real.pi / 180 = 0 := by norm_num
  have hs3 : Real.sin (((3 : ℕ) : ℝ) * (2 * Real.pi)) = 0 := by
    rw [show ((3 : ℕ) : ℝ) * (2 * Real.pi) = ((6 : ℤ) : ℝ) * Real.pi by push_cast; ring]
    exact Real.sin_int_mul_pi 6
  have hs2 : Real.sin (((2 : ℕ) : ℝ) * (2 * Real.pi)) = 0 := by
    rw [show ((2 : ℕ) : ℝ) * (2 * Real.pi) = ((4 : ℤ) : ℝ) * Real.pi by push_cast; ring]
    exact Real.sin_int_mul_pi 4
  simp only [spiro_point]
  rw [h2, h1, h0]
  rw [Real.cos_nat_mul_two_pi, Real.cos_nat_mul_two_pi, hs3, hs2]
  norm_num

/-- C4: for the integer radii R = 5, r = 3 and any positive pen distance d,
the computed rotation count is q = 3/gcd(2, 3) = 3 (also after any scale
guard), the first generated point is the sample at theta = 0, and the sample
point function at theta = 360*q degrees coincides with the sample at
theta = 0: after exactly 360*q degrees of sampling the curve closes back onto
the list's first point.  (The loop range(0, 360*q, step) itself stops one
step short of 360*q, so the closing sample is the point the curve returns to
rather than a further list element.) -/
theorem spiro_closure (c : Point) (d : ℝ) (step : ℤ) (hd : 0 < d) (hstep : 0 < step) :
    spiro_q (check_and_scale 5 3 d).1 (check_and_scale 5 3 d).2.1 = 3 ∧
    (spiro_generate c 5 3 d step).head? =
      some (spiro_point c (check_and_scale 5 3 d).1 (3 / 5) (d / 3)
        (check_and_scale 5 3 d).2.2.2 0) ∧
    spiro_point c (check_and_scale 5 3 d).1 (3 / 5) (d / 3)
        (check_and_scale 5 3 d).2.2.2 (360 * 3) =
      spiro_point c (check_and_scale 5 3 d).1 (3 / 5) (d / 3)
        (check_and_scale 5 3 d).2.2.2 0 := by
  obtain ⟨m, heq, h1r, hgen⟩ :=
    spiro_generate_pos_eq c 5 3 d step (by norm_num) (by norm_num) hd
  rw [heq]
  dsimp only
  have h10 : (10 : ℝ) ^ m ≠ 0 := by positivity
  have hk : (3 : ℝ) * 10 ^ m / (5 * 10 ^ m) = 3 / 5 := by
    field_simp
    ring
  have hl : d * 10 ^ m / (3 * 10 ^ m) = d / 3 := by
    field_simp
    ring
  refine ⟨spiro_q_five_three m, ?_, spiro_point_closure c _ (d / 3) _⟩
  rw [hgen, hk, hl, spiro_q_five_three m, List.head?_map,
    pythonRange_head _ _ hstep (by norm_num)]
  rfl

/-- Witness for C4 at pen distance 2 and angle step 5. -/
theorem spiro_closure_witness :
    (0 : ℝ) < 2 ∧ (0 : ℤ) < 5 ∧
    spiro_point ((0 : ℝ), (0 : ℝ)) (check_and_scale 5 3 2).1 (3 / 5) ((2 : ℝ) / 3)
        (check_and_scale 5 3 2).2.2.2 (360 * 3) =
      spiro_point ((0 : ℝ), (0 : ℝ)) (check_and_scale 5 3 2).1 (3 / 5) ((2 : ℝ) / 3)
        (check_and_scale 5 3 2).2.2.2 0 :=
  ⟨by norm_num, by norm_num,
    (spiro_closure ((0 : ℝ), (0 : ℝ)) 2 5 (by norm_num) (by norm_num)).2.2⟩

theorem floor_logb_00002 : ⌊Real.logb 10 (0.0002 : ℝ)⌋ = -4 := by
  have h1 : ((10 : ℝ) ^ (((-4 : ℤ)) : ℝ)) = 1 / 10000 := by
    rw [Real.rpow_intCast]
    norm_num
  rw [Int.floor_eq_iff]
  constructor
  · rw [Real.le_logb_iff_rpow_le (by norm_num) (by norm_num), h1]
    norm_num
  · rw [Real.logb_lt_iff_lt_rpow (by norm_num) (by norm_num)]
    have h3 : (((-4 : ℤ)) : ℝ) + 1 = (((-3 : ℤ)) : ℝ) := by
      push_cast
      ring
    rw [h3, Real.rpow_intCast]
    norm_num

theorem check_and_scale_small :
    check_and_scale (0.0005 : ℝ) 0.0003 0.0002 = (50, 30, 20, 100000) := by
  have hR : (0 : ℝ) < 0.0005 := by norm_num
  have hr : (0 : ℝ) < 0.0003 := by norm_num
  have hd : (0 : ℝ) < 0.0002 := by norm_num
  simp only [check_and_scale, List.filter_cons, List.filter_nil, decide_eq_true_eq,
    hR, hr, hd, if_true, List.foldl]
  rw [min_eq_right (by norm_num : (0.0003 : ℝ) ≤ 0.0005),
    min_eq_right (by norm_num : (0.0002 : ℝ) ≤ 0.0003),
    if_pos (by norm_num : (0.0002 : ℝ) < 1), floor_logb_00002]
  norm_num

theorem check_and_scale_five_three_two :
    check_and_scale (5 : ℝ) 3 2 = (5, 3, 2, 1) := by
  have hR : (0 : ℝ) < 5 := by norm_num
  have hr : (0 : ℝ) < 3 := by norm_num
  have hd : (0 : ℝ) < 2 := by norm_num
  simp only [check_and_scale, List.filter_cons, List.filter_nil, decide_eq_true_eq,
    hR, hr, hd, if_true, List.foldl]
  rw [if_neg (by norm_num [min_def])]

theorem spiro_q_fifty_thirty : spiro_q (50 : ℝ) 30 = 3 := by
  have h := spiro_q_five_three 1
  norm_num at h
  exact h

theorem spiro_q_five_three_concrete : spiro_q (5 : ℝ) 3 = 3 := by
  have h := spiro_q_five_three 0
  norm_num at h
  exact h

theorem spiro_generate_small_eq (c : Point) (step : ℤ) :
    spiro_generate c (0.0005 : ℝ) 0.0003 0.0002 step =
      (pythonRange 0 (360 * 3) step).map
        (spiro_point c 50 (30 / 50) (20 / 30) 100000) := by
  simp only [spiro_generate, check_and_scale_small]
  rw [if_pos (by norm_num : (50 : ℝ) ≠ 0), if_pos (by norm_num : (30 : ℝ) ≠ 0),
    if_neg (by push_neg; constructor <;> norm_num), spiro_q_fifty_thirty]

theorem spiro_generate_big_eq (c : Point) (step : ℤ) :
    spiro_generate c (5 : ℝ) 3 2 step =
      (pythonRange 0 (360 * 3) step).map (spiro_point c 5 (3 / 5) (2 / 3) 1) := by
  simp only [spiro_generate, check_and_scale_five_three_two]
  rw [if_pos (by norm_num : (5 : ℝ) ≠ 0), if_pos (by norm_num : (3 : ℝ) ≠ 0),
    if_neg (by push_neg; constructor <;> norm_num), spiro_q_five_three_concrete]

theorem spiro_point_scale_guard_rel (c₁ c₂ : Point) (θ : ℤ) :
    (spiro_point c₁ 50 (30 / 50) (20 / 30) 100000 θ).1 - c₁.1 =
      ((spiro_point c₂ 5 (3 / 5) (2 / 3) 1 θ).1 - c₂.1) / 10 ^ 4 ∧
    (spiro_point c₁ 50 (30 / 50) (20 / 30) 100000 θ).2 - c₁.2 =
      ((spiro_point c₂ 5 (3 / 5) (2 / 3) 1 θ).2 - c₂.2) / 10 ^ 4 := by
  have harg1 : ((1 - 30 / 50 : ℝ) / (30 / 50)) = (1 - 3 / 5) / (3 / 5) := by norm_num
  simp only [spiro_point]
  rw [if_pos (by norm_num : (100000 : ℝ) ≠ 1),
    if_pos (by norm_num : (100000 : ℝ) ≠ 1),
    if_neg (by norm_num : ¬(1 : ℝ) ≠ 1), if_neg (by norm_num : ¬(1 : ℝ) ≠ 1),
    harg1]
  constructor
  · ring
  · ring

/-- C8: the scale guard is geometry-preserving.  For R = 0.0005, r = 0.0003
and d = 0.0002 the guard scales all three parameters by 10^5 (bringing the
smallest to 20, above 1.0) and divides the resulting coordinates by the same
factor, and the generated curve agrees point for point — with the same number
of points — with the curve for R = 5, r = 3, d = 2 scaled by 10^-4 relative
to the fixed-circle centers. -/
theorem scale_guard_transparency (c₁ c₂ : Point) (step : ℤ) :
    check_and_scale (0.0005 : ℝ) 0.0003 0.0002 = (50, 30, 20, 100000) ∧
    List.Forall₂
      (fun p q : Point => p.1 - c₁.1 = (q.1 - c₂.1) / 10 ^ 4 ∧
        p.2 - c₁.2 = (q.2 - c₂.2) / 10 ^ 4)
      (spiro_generate c₁ (0.0005 : ℝ) 0.0003 0.0002 step)
      (spiro_generate c₂ (5 : ℝ) 3 2 step) := by
  refine ⟨check_and_scale_small, ?_⟩
  rw [spiro_generate_small_eq, spiro_generate_big_eq]
  rw [List.forall₂_map_left_iff, List.forall₂_map_right_iff, List.forall₂_same]
  intro θ _
  exact spiro_point_scale_guard_rel c₁ c₂ θ

/-- Witness for C8 with both fixed centers at the origin and angle step 5. -/
theorem scale_guard_transparency_witness :
    check_and_scale (0.0005 : ℝ) 0.0003 0.0002 = (50, 30, 20, 100000) ∧
    List.Forall₂
      (fun p q : Point => p.1 - 0 = (q.1 - 0) / 10 ^ 4 ∧
        p.2 - 0 = (q.2 - 0) / 10 ^ 4)
      (spiro_generate ((0 : ℝ), (0 : ℝ)) (0.0005 : ℝ) 0.0003 0.0002 5)
      (spiro_generate ((0 : ℝ), (0 : ℝ)) (5 : ℝ) 3 2 5) :=
  scale_guard_transparency ((0 : ℝ), (0 : ℝ)) ((0 : ℝ), (0 : ℝ)) 5
